import Mathlib

/-!
# Verification of the mos-6500 NES emulator core against its specification

Shallow embedding of the parts of the `mos-6500` repository that the checked
properties are about: the CPU arithmetic instructions (`emulator::cpu::instructions`
and `simul::cpu::instructions`), the branch instructions, the memory bus
(`emulator::memory`), and the PPU scanline/scroll state machine (`emulator::ppu`).

Machine integers (`u8`, `u16`) are embedded as `Nat` with explicit `% 256` /
`% 65536` at the points where the Rust code wraps.  Code that can `panic!`
is embedded as an `Option`-returning function, `none` standing for the abort.
-/

/-- CPU status register, one field per flag bit of `p`
(`emulator::cpu::flags::Flag`): carry, zero, interrupt-disable, decimal,
overflow, negative. -/
structure Flags where
  c : Bool
  z : Bool
  i : Bool
  d : Bool
  v : Bool
  n : Bool
deriving DecidableEq, Repr

/-- The all-clear status register, used to build concrete test states. -/
def flags0 : Flags := { c := false, z := false, i := false, d := false, v := false, n := false }

namespace util

/-- Modelled from the spec: `emulator::util::bcd_to_hex` (and the identical
`simul::utils::bcd_to_hex`) is not under src/.  The spec's BCD design note
presumes the standard packed-BCD encoding, so the decoder reads the high
nibble as the tens digit and the low nibble as the units digit. -/
def bcd_to_hex (b : Nat) : Nat := (b >>> 4) * 10 + (b &&& 0xF)

/-- Modelled from the spec: `emulator::util::hex_to_bcd` (and the identical
`simul::utils::hex_to_bcd`) is not under src/.  Standard packed-BCD encoding
of a value, reduced `% 256` for the `u8` return type. -/
def hex_to_bcd (h : Nat) : Nat := (((h / 10) <<< 4) + h % 10) % 256

end util

/-- `update_zero_flag` from `src/src/emulator/cpu/instructions.rs` (the
`simul` copy is identical): set Z exactly when the result byte is zero. -/
def update_zero_flag (p : Flags) (result : Nat) : Flags :=
  { p with z := decide (result = 0) }

/-- `update_negative_flag` from `src/src/emulator/cpu/instructions.rs` (the
`simul` copy is identical): set N exactly when bit 7 of the result is set. -/
def update_negative_flag (p : Flags) (result : Nat) : Flags :=
  { p with n := decide (result &&& 0b10000000 ≠ 0) }

namespace instructions

/-- Embedding of `emulator::cpu::instructions::adc`
(src/src/emulator/cpu/instructions.rs lines 49-97).  The addressing-mode
resolution and the memory load are abstracted into the operand byte `mem`;
the function returns the new accumulator byte and the new status register.
Note the overflow flag is computed from the old accumulator `a`, since the
source assigns `cpu.a = res` only at the end. -/
def adc (a mem : Nat) (p : Flags) : Nat × Flags :=
  let carry_val : Nat := if p.c then 1 else 0
  let rc : Nat × Bool :=
    if p.d then
      -- BCD arithmetic.
      let hex_a := util.bcd_to_hex a
      let hex_mem := util.bcd_to_hex mem
      let hex_res := hex_a + hex_mem + carry_val
      -- Wrap to <99.  Max value is 199 so only need to check once.
      if hex_res ≤ 99 then (util.hex_to_bcd hex_res, false)
      else (util.hex_to_bcd (hex_res - 100), true)
    else
      -- Normal arithmetic: two u8 `overflowing_add`s.
      let res1 := (a + mem) % 256
      let carry1 := decide (256 ≤ a + mem)
      let res2 := (res1 + carry_val) % 256
      let carry2 := decide (256 ≤ res1 + carry_val)
      (res2, carry1 || carry2)
  let res := rc.1
  let p := { p with c := rc.2 }
  let a_sign := a &&& 0b10000000
  let mem_sign := mem &&& 0b10000000
  let res_sign := res &&& 0b10000000
  let p := { p with v := decide (a_sign = mem_sign ∧ a_sign ≠ res_sign) }
  let p := update_zero_flag p res
  let p := update_negative_flag p res
  (res, p)

/-- Embedding of `emulator::cpu::instructions::sbc`
(src/src/emulator/cpu/instructions.rs lines 102-149).  In the binary branch
the source computes `(!mem).overflowing_add(carry_val)` and discards the
carry-out, which the `% 256` reproduces.  In the BCD branch `overflowing_sub`
on `u8` is embedded as wrapped difference plus a did-it-borrow flag; Rust's
`res - (255 - 99)` on `u8` is embedded with truncated `Nat` subtraction
(no claim exercises that branch). -/
def sbc (a mem : Nat) (p : Flags) : Nat × Flags :=
  let carry_val : Nat := if p.c then 1 else 0
  let rc : Nat × Bool :=
    if p.d then
      -- BCD arithmetic.
      let hex_a := util.bcd_to_hex a
      let hex_mem := util.bcd_to_hex mem
      let borrow := 1 - carry_val
      let hex_sub_amount := hex_mem + borrow
      let res := (hex_a + 256 - hex_sub_amount % 256) % 256
      let wrapped := decide (hex_a < hex_sub_amount)
      if wrapped then (util.hex_to_bcd (res - (255 - 99)), false)
      else (util.hex_to_bcd res, true)
    else
      -- Normal arithmetic: `!mem` then a u8 add whose carry-out is dropped.
      let minus_m := ((255 - mem % 256) + carry_val) % 256
      ((a + minus_m) % 256, decide (256 ≤ a + minus_m))
  let res := rc.1
  let p := { p with c := rc.2 }
  let a_sign := a &&& 0b10000000
  let mem_sign := mem &&& 0b10000000
  let res_sign := res &&& 0b10000000
  let p := { p with v := decide (a_sign ≠ mem_sign ∧ mem_sign = res_sign) }
  let p := update_zero_flag p res
  let p := update_negative_flag p res
  (res, p)

end instructions

namespace simul

/-- Embedding of `simul::cpu::instructions::adc`
(src/src/simul/cpu/instructions.rs lines 45-86).  Same conventions as the
`emulator` copy.  Its BCD branch does not wrap the digit sum back below 100,
and its overflow flag compares `a ||| 0x80` with `res ||| 0x80` (the source
uses `|`, not `&`, on the sign bits). -/
def adc (a mem : Nat) (p : Flags) : Nat × Flags :=
  let carry_val : Nat := if p.c then 1 else 0
  let rc : Nat × Bool :=
    if p.d then
      -- BCD arithmetic.
      let hex_a := util.bcd_to_hex a
      let hex_mem := util.bcd_to_hex mem
      let hex_res := hex_a + hex_mem + carry_val
      (util.hex_to_bcd hex_res, decide (99 < hex_res))
    else
      -- Normal arithmetic: two u8 `overflowing_add`s.
      let res1 := (a + mem) % 256
      let carry1 := decide (256 ≤ a + mem)
      let res2 := (res1 + carry_val) % 256
      let carry2 := decide (256 ≤ res1 + carry_val)
      (res2, carry1 || carry2)
  let res := rc.1
  let p := { p with c := rc.2 }
  let old_sign := a ||| 0b10000000
  let new_sign := res ||| 0b10000000
  let p := { p with v := decide (new_sign ≠ old_sign) }
  let p := update_zero_flag p res
  let p := update_negative_flag p res
  (res, p)

end simul

/-- The CPU register state touched by the branch instructions
(`emulator::cpu::CPU`): accumulator, program counter, status register.  The
remaining registers are not read or written by any embedded function. -/
structure CPU where
  a : Nat
  pc : Nat
  p : Flags
deriving DecidableEq, Repr

/-- `cpu::addressing::AddressingMode`: a resolver that may mutate the CPU
(consuming operand bytes advances `pc`) and yields the effective address and
the mode's extra cycles, `fn(&mut CPU) -> (u16, u32)`. -/
def AddressingMode : Type := CPU → CPU × Nat × Nat

namespace instructions

/-- `branch_if` (src/src/emulator/cpu/instructions.rs lines 249-258): resolve
the target through the addressing mode, then either jump and pay the mode's
extra cycles plus one, or fall through at zero extra cycles. -/
def branch_if (cpu : CPU) (load_addr : AddressingMode) (should_branch : Bool) : CPU × Nat :=
  let r := load_addr cpu
  let cpu := r.1
  let addr := r.2.1
  let addr_cycles := r.2.2
  if should_branch then ({ cpu with pc := addr }, addr_cycles + 1)
  else
    -- If not branching we don't incur any of the extra cycles.
    (cpu, 0)

/-- BMI - Branch on Result Minus. -/
def bmi (cpu : CPU) (load_addr : AddressingMode) : CPU × Nat :=
  branch_if cpu load_addr cpu.p.n

/-- BPL - Branch on Result Plus. -/
def bpl (cpu : CPU) (load_addr : AddressingMode) : CPU × Nat :=
  branch_if cpu load_addr (!cpu.p.n)

/-- BCC - Branch on Carry Clear. -/
def bcc (cpu : CPU) (load_addr : AddressingMode) : CPU × Nat :=
  branch_if cpu load_addr (!cpu.p.c)

/-- BCS - Branch on Carry Set. -/
def bcs (cpu : CPU) (load_addr : AddressingMode) : CPU × Nat :=
  branch_if cpu load_addr cpu.p.c

/-- BEQ - Branch on Result Zero. -/
def beq (cpu : CPU) (load_addr : AddressingMode) : CPU × Nat :=
  branch_if cpu load_addr cpu.p.z

/-- BNE - Branch on Result Not Zero. -/
def bne (cpu : CPU) (load_addr : AddressingMode) : CPU × Nat :=
  branch_if cpu load_addr (!cpu.p.z)

/-- BVS - Branch on Overflow Set. -/
def bvs (cpu : CPU) (load_addr : AddressingMode) : CPU × Nat :=
  branch_if cpu load_addr cpu.p.v

/-- BVC - Branch on Overflow Clear. -/
def bvc (cpu : CPU) (load_addr : AddressingMode) : CPU × Nat :=
  branch_if cpu load_addr (!cpu.p.v)

end instructions

namespace addressing

/-- Modelled from the spec: sign-extension of the 8-bit relative offset to a
16-bit two's-complement displacement (spec 4.2: "Relative offsets are
sign-extended 8-bit"). -/
def sign_extend (offset : Nat) : Nat :=
  if offset < 128 then offset else 0xFF00 + offset

/-- Modelled from the spec: the `Relative` addressing-mode resolver lives in
`cpu::addressing`, which is not under src/.  Per spec 4.2 and scenario 5 it
consumes the operand byte at `pc` (advancing `pc`), resolves the target as
the advanced `pc` plus the sign-extended offset, and charges one extra cycle
when the target lies on a different page from the operand byte (so a branch
from `$C0FE` with offset +4 reaches `$C104` with the page-cross cycle, per
scenario 5). -/
def relative (offset : Nat) : AddressingMode := fun cpu =>
  let operand_pc := cpu.pc
  let cpu := { cpu with pc := (cpu.pc + 1) % 65536 }
  let target := (cpu.pc + sign_extend offset) % 65536
  let extra := if operand_pc / 256 = target / 256 then 0 else 1
  (cpu, target, extra)

end addressing

namespace memory

/-- A mounted bus module (`emulator::memory::Module`): a device handle with an
inclusive address range.  The `Rc<RefCell<ReadWriter>>` delegate is embedded
as an opaque handle naming the device. -/
structure Module where
  delegate : Nat
  start_addr : Nat
  end_addr : Nat
deriving DecidableEq, Repr

/-- `emulator::memory::Manager`: the ordered module list. -/
structure Manager where
  modules : List Module
deriving DecidableEq, Repr

/-- `Manager::find_module` (src/src/emulator/memory.rs lines 61-68): the first
module in order whose inclusive range contains the address. -/
def find_module (modules : List Module) (addr : Nat) : Option Module :=
  match modules with
  | [] => none
  | m :: rest =>
    if m.start_addr ≤ addr ∧ addr ≤ m.end_addr then some m
    else find_module rest addr

/-- `memory::new()` (src/src/emulator/memory.rs lines 22-34): a manager whose
single module is a full-range RAM backing; the RAM device gets handle 0. -/
def new : Manager :=
  { modules := [{ delegate := 0, start_addr := 0, end_addr := 65535 }] }

/-- `Manager::mount` (src/src/emulator/memory.rs lines 51-59): range-check the
mount (the panic branch is embedded as `none`; for `u16` arguments it cannot
fire) and prepend the module. -/
def mount (mgr : Manager) (delegate start_addr end_addr : Nat) : Option Manager :=
  if 65536 ≤ end_addr then none
  else some { modules :=
    { delegate := delegate, start_addr := start_addr, end_addr := end_addr } :: mgr.modules }

/-- `impl Reader for Manager` (src/src/emulator/memory.rs lines 36-41): route
to the first containing module and ask its device for the byte.  `env dev a`
stands for what device `dev` answers to `read(a)` (the `RefCell` borrow);
the source's `unwrap` of `find_module` is embedded as the `Option`. -/
def read (env : Nat → Nat → Nat) (mgr : Manager) (addr : Nat) : Option Nat :=
  (find_module mgr.modules addr).map fun m => env m.delegate addr

/-- `impl Writer for Manager` (src/src/emulator/memory.rs lines 43-48): route
to the first containing module; the routed effect is reported as the triple
(device handle, address, byte) handed to that device's `write`. -/
def write (mgr : Manager) (addr byte : Nat) : Option (Nat × Nat × Nat) :=
  (find_module mgr.modules addr).map fun m => (m.delegate, addr, byte)

/-- A sequence of `mount` calls applied in order to a manager. -/
def mountList (mgr : Manager) : List (Nat × Nat × Nat) → Option Manager
  | [] => some mgr
  | (d, s, e) :: rest =>
    match mount mgr d s e with
    | none => none
    | some mgr => mountList mgr rest

end memory

namespace ppu

/-- The PPU state touched by the embedded tick/scroll pipeline
(`emulator::ppu::PPU`).  The fields the embedded functions neither read nor
write (the video output, the memory managers, the shift registers, the
write toggle) are omitted. -/
structure PPU where
  /-- VRAM address (`u16`). -/
  v : Nat
  /-- Temporary VRAM address (`u16`). -/
  t : Nat
  /-- Fine X scroll (`u8`). -/
  fine_x : Nat
  /-- Current scanline (`u16`), 262 per frame. -/
  scanline : Nat
  /-- Current cycle (dot) within the scanline (`u16`), 341 per scanline. -/
  cycle : Nat
  /-- Whether rendering is enabled. -/
  rendering_is_enabled : Bool
deriving DecidableEq, Repr

/-- Fine Y scroll: bits 12-14 of `v`. -/
def fine_y_scroll (p : PPU) : Nat := (p.v >>> 12) &&& 0b111

/-- Nametable select: bits 10-11 of `v`, shifted down to bits 0-1. -/
def nametable_select (p : PPU) : Nat := (p.v >>> 10) &&& 0b11

/-- Coarse Y scroll: bits 5-9 of `v`. -/
def coarse_y_scroll (p : PPU) : Nat := (p.v >>> 5) &&& 0b11111

/-- Coarse X scroll: bits 0-4 of `v`. -/
def coarse_x_scroll (p : PPU) : Nat := p.v &&& 0b11111

/-- `PPU::increment_coarse_x` (src/src/emulator/ppu/mod.rs lines 240-247):
wrap coarse X at 32, flipping the horizontal nametable bit.  `!` on `u16`
is the 16-bit complement `0xFFFF ^^^ ·`. -/
def increment_coarse_x (p : PPU) : PPU :=
  if coarse_x_scroll p = 31 then
    let v := p.v &&& (0xFFFF ^^^ 0x001F)  -- Coarse X = 0.
    let v := v ^^^ 0x0400                 -- Switch horizontal nametable.
    { p with v := v }
  else
    { p with v := (p.v + 1) % 65536 }     -- Increment coarse X.

/-- `PPU::increment_y` (src/src/emulator/ppu/mod.rs lines 249-266): advance
fine Y; on wrap advance coarse Y, flipping the vertical nametable bit at 29
and skipping the attribute rows at 31. -/
def increment_y (p : PPU) : PPU :=
  if fine_y_scroll p < 7 then
    { p with v := (p.v + 0x100) % 65536 }  -- Increment fine Y.
  else
    let p := { p with v := p.v &&& (0xFFFF ^^^ 0x700) }  -- Fine Y = 0.
    let coarse_y := coarse_y_scroll p
    let step : Nat × PPU :=
      if coarse_y = 29 then (0, { p with v := p.v ^^^ 0x0800 })  -- Switch vertical nametable.
      else if coarse_y = 31 then (0, p)
      else (coarse_y + 1, p)
    -- Put coarse_y back into v.
    { step.2 with v := (step.2.v &&& (0xFFFF ^^^ 0x03E0)) ||| (step.1 <<< 5) }

/-- The horizontal scroll-copy mask, written `0b0000100_00011111` in the
source (src/src/emulator/ppu/mod.rs line 195); Lean numerals take no digit
separator, the binary digits are the same. -/
def horizontal_bitmask : Nat := 0b000010000011111

/-- The vertical scroll-copy mask, written `0b1111011_11100000` in the source
(src/src/emulator/ppu/mod.rs line 203). -/
def vertical_bitmask : Nat := 0b111101111100000

/-- `PPU::handle_scrolling` (src/src/emulator/ppu/mod.rs lines 182-213). -/
def handle_scrolling (p : PPU) : PPU :=
  -- No scrolling happens if rendering is disabled.
  if !p.rendering_is_enabled then p
  else
    -- On dot 256 of each scanline, increment y position.
    let p := if p.cycle = 256 then increment_y p else p
    -- On dot 257 of each scanline, copy all horizontal bits from t to v.
    let p :=
      if p.cycle = 257 then
        { p with v := (p.v &&& (0xFFFF ^^^ horizontal_bitmask)) ||| (p.t &&& horizontal_bitmask) }
      else p
    -- Between dots 280 and 304 of the pre-render scanline, copy the vertical
    -- bits from t to v.
    let p :=
      if p.scanline = 261 ∧ 280 ≤ p.cycle ∧ p.cycle ≤ 304 then
        { p with v := (p.v &&& (0xFFFF ^^^ vertical_bitmask)) ||| (p.t &&& vertical_bitmask) }
      else p
    -- x scroll increments on every multiple of 8 dots except 0, within
    -- 328..340 and 1..256.
    if ((0 < p.cycle ∧ p.cycle ≤ 256) ∨ 328 ≤ p.cycle) ∧ p.cycle % 8 = 0 then
      increment_coarse_x p
    else p

/-- `PPU::tile_address` (src/src/emulator/ppu/mod.rs lines 269-271). -/
def tile_address (p : PPU) : Nat := 0x2000 ||| (p.v &&& 0x0FFF)

/-- `PPU::attribute_address` (src/src/emulator/ppu/mod.rs lines 273-276):
note the second disjunct is `nametable_select`, which has already shifted
the nametable bits down to bits 0-1. -/
def attribute_address (p : PPU) : Nat :=
  0x23C0 ||| nametable_select p ||| ((p.v >>> 4) &&& 0x38) ||| ((p.v >>> 2) &&& 0x07)

/-- `PPU::tick_idle_scanline`: idle for 341 cycles. -/
def tick_idle_scanline : Nat := 341

/-- `PPU::tick_vblank`: the vblank-flag TODO in the source does nothing yet;
one cycle. -/
def tick_vblank (_ : PPU) : Nat := 1

/-- `PPU::tick_idle_cycle`. -/
def tick_idle_cycle : Nat := 1

/-- `PPU::tick_render_cycle`. -/
def tick_render_cycle : Nat := 1

/-- `PPU::tick_sprite_fetch_cycle`. -/
def tick_sprite_fetch_cycle : Nat := 1

/-- `PPU::tick_prefetch_tiles_cycle`. -/
def tick_prefetch_tiles_cycle : Nat := 1

/-- `PPU::tick_unknown_fetch`. -/
def tick_unknown_fetch : Nat := 1

/-- `PPU::tick_render` (src/src/emulator/ppu/mod.rs lines 116-143): dispatch
on the cycle ranges of the scanline, then apply scrolling.  The
unreachable-cycle `panic!` arm is embedded as `none`. -/
def tick_render (p : PPU) : Option (PPU × Nat) :=
  let cycles : Option Nat :=
    if p.cycle = 0 then some tick_idle_cycle
    else if 1 ≤ p.cycle ∧ p.cycle ≤ 256 then some tick_render_cycle
    else if 257 ≤ p.cycle ∧ p.cycle ≤ 320 then some tick_sprite_fetch_cycle
    else if 321 ≤ p.cycle ∧ p.cycle ≤ 336 then some tick_prefetch_tiles_cycle
    else if 337 ≤ p.cycle ∧ p.cycle ≤ 340 then some tick_unknown_fetch
    else none
  cycles.map fun c => (handle_scrolling p, c)

/-- `PPU::tick` (src/src/emulator/ppu/mod.rs lines 94-114): dispatch on the
scanline (the catch-all `panic!` arm, hit by scanlines 242-260, is embedded
as `none`, as is the cycle-overrun panic), advance the cycle counter, and
wrap to the next scanline modulo 262 at cycle 341.  Returns the updated PPU
and the cycles the tick took. -/
def tick (p : PPU) : Option (PPU × Nat) :=
  let dispatched : Option (PPU × Nat) :=
    if p.scanline ≤ 239 ∨ p.scanline = 261 then tick_render p
    else if p.scanline = 240 then some (p, tick_idle_scanline)
    else if p.scanline = 241 then some (p, tick_vblank p)
    else none
  dispatched.bind fun st => show Option (PPU × Nat) from
    let p : PPU := { st.1 with cycle := st.1.cycle + st.2 }
    if 341 < p.cycle then none
    else
      let p : PPU :=
        if p.cycle = 341 then { p with cycle := 0, scanline := (p.scanline + 1) % 262 }
        else p
      some (p, st.2)

/-- Iterated `tick`, keeping only the state; `none` once any tick aborts. -/
def tickSteps : Nat → PPU → Option PPU
  | 0, p => some p
  | n + 1, p =>
    match tick p with
    | none => none
    | some (p, _) => tickSteps n p

end ppu

/-! Concrete states used by the individual checks. -/

/-- A PPU at the start of the first vblank scanline, rendering disabled:
a valid state (scanline 241 of 0-261, cycle 0 of 0-340). -/
def ppu241 : ppu.PPU :=
  { v := 0, t := 0, fine_x := 0, scanline := 241, cycle := 0, rendering_is_enabled := false }

/-- A PPU on vblank scanline 250 with rendering disabled. -/
def ppu250 : ppu.PPU :=
  { v := 7, t := 9, fine_x := 3, scanline := 250, cycle := 17, rendering_is_enabled := false }

/-- A PPU whose VRAM address has the low nametable-select bit (bit 10) set. -/
def ppu_nametable : ppu.PPU :=
  { v := 0x0400, t := 0, fine_x := 0, scanline := 0, cycle := 0, rendering_is_enabled := true }

/-- A rendering PPU at dot 257, all `v` bits set, a recognizable `t`. -/
def ppu_copy257 : ppu.PPU :=
  { v := 0x7FFF, t := 0x1234, fine_x := 0, scanline := 0, cycle := 257, rendering_is_enabled := true }

/-- A rendering PPU on the pre-render scanline at dot 280. -/
def ppu_copy280 : ppu.PPU :=
  { v := 0x7FFF, t := 0x1234, fine_x := 0, scanline := 261, cycle := 280, rendering_is_enabled := true }

/-- A PPU mid-scanline with rendering disabled. -/
def ppu_disabled100 : ppu.PPU :=
  { v := 1, t := 2, fine_x := 3, scanline := 100, cycle := 10, rendering_is_enabled := false }

/-- The manager obtained from `memory::new()` by one mount of device 7 over
`$2000-$3FFF`. -/
def mgr1 : memory.Manager :=
  { modules := [{ delegate := 7, start_addr := 0x2000, end_addr := 0x3FFF },
                { delegate := 0, start_addr := 0, end_addr := 65535 }] }

/-! # Theorems -/

/-- C1: the claim requires SBC (D clear) to set the carry flag exactly when
`A + ~M + C` exceeds `0xFF`, in particular at `M = 0`, `C = 1`.  The code
violates this: at `A = 0x50`, `M = 0x00`, `C = 1` it computes `~M + C` on
`u8`, dropping that addition's carry-out, so it returns `A = 0x50` with the
carry flag cleared even though `A + ~M + C = 0x150 > 0xFF` demands carry
set.  (The result byte itself matches the claim.) -/
theorem sbc_binary_carry_dropped_at_zero_operand :
    instructions.sbc 0x50 0x00 { c := true, z := false, i := false, d := false, v := false, n := false } =
      (0x50, { c := false, z := false, i := false, d := false, v := false, n := false }) ∧
    255 < 0x50 + (255 - 0x00) + 1 := by decide

/-- C2: the claim states the attribute fetch address is
`0x23C0 | (v & 0x0C00) | ((v >> 4) & 0x38) | ((v >> 2) & 0x07)`, nametable
bits at positions 10-11.  The code instead ORs in `nametable_select`, which
has shifted those bits down to positions 0-1: at `v = 0x0400` the code
yields `$23C1` where the claimed formula yields `$27C0`. -/
theorem attribute_address_shifts_nametable_bits_down :
    ppu.attribute_address ppu_nametable = 0x23C1 ∧
    0x23C0 ||| (ppu_nametable.v &&& 0x0C00) ||| ((ppu_nametable.v >>> 4) &&& 0x38) |||
        ((ppu_nametable.v >>> 2) &&& 0x07) = 0x27C0 ∧
    ppu.attribute_address ppu_nametable ≠
      0x23C0 ||| (ppu_nametable.v &&& 0x0C00) ||| ((ppu_nametable.v >>> 4) &&& 0x38) |||
        ((ppu_nametable.v >>> 2) &&& 0x07) := by decide

set_option maxRecDepth 20000 in
/-- C3: from the valid state `ppu241` (scanline 241, cycle 0), 341 ticks
reach scanline 242 — at which point the next tick hits the catch-all
`panic!` arm of the scanline match (embedded as `none`): the claim that
every reachable state ticks without aborting fails on scanlines 242-260. -/
theorem tick_aborts_on_vblank_scanline_242 :
    ppu.tickSteps 341 ppu241 = some { ppu241 with scanline := 242 } ∧
    ppu.tick { ppu241 with scanline := 242 } = none ∧
    ppu.tickSteps 342 ppu241 = none := by decide

/-- C4: the claim requires the D flag to have no arithmetic effect, but both
ADC and SBC take the BCD path whenever D is set (there is no NES-mode
switch): ADC of `0x09 + 0x01` gives `0x10` with D set against `0x0A` with D
clear, and SBC `0x50 - 0x01` (C=1) gives `0x49` against `0x4F`. -/
theorem decimal_flag_affects_nes_arithmetic :
    (instructions.adc 0x09 0x01 { flags0 with d := true }).1 ≠
      (instructions.adc 0x09 0x01 flags0).1 ∧
    (instructions.sbc 0x50 0x01 { c := true, z := false, i := false, d := true, v := false, n := false }).1 ≠
      (instructions.sbc 0x50 0x01 { c := true, z := false, i := false, d := false, v := false, n := false }).1 := by
  decide

/-- C9 counterexample: the two `adc` implementations are not equivalent.  On
the binary path at `A = 0x00`, `M = 0x01`, `C = 0` the emulator clears V
while simul sets it (simul compares `a | 0x80` with `res | 0x80`, so any
change in the low seven bits trips it); on the BCD path at `A = 0x99`,
`M = 0x01` the emulator wraps the digit sum to `0x00` while simul encodes
the unwrapped 100 as `0xA0`. -/
theorem adc_emulator_simul_disagree :
    (instructions.adc 0x00 0x01 flags0).2.v ≠ (simul.adc 0x00 0x01 flags0).2.v ∧
    (instructions.adc 0x99 0x01 { flags0 with d := true }).1 ≠
      (simul.adc 0x99 0x01 { flags0 with d := true }).1 := by decide

/-- C10 counterexample: with rendering disabled, a tick from scanline 250
(reachable vblank territory) aborts instead of returning with the counters
advanced, so the claim does not hold "whatever the current scanline". -/
theorem tick_rendering_disabled_aborts_at_scanline_250 :
    ppu250.rendering_is_enabled = false ∧ ppu.tick ppu250 = none := by decide

/-- Masking with bit 7 in terms of `testBit`: helper for the sign-flag
arguments. -/
theorem and_bit7_eq (x : Nat) : x &&& 128 = (x.testBit 7).toNat * 128 := by
  have h := Nat.and_two_pow x 7
  norm_num at h
  exact h

/-- Two numbers have equal bit-7 masks exactly when their bits 7 agree. -/
theorem and_bit7_eq_iff (x y : Nat) : x &&& 128 = y &&& 128 ↔ x.testBit 7 = y.testBit 7 := by
  rw [and_bit7_eq, and_bit7_eq]
  cases hx : x.testBit 7 <;> cases hy : y.testBit 7 <;> simp

/-- The bit-7 mask is nonzero exactly when bit 7 is set. -/
theorem and_bit7_ne_zero (x : Nat) : decide (x &&& 128 ≠ 0) = x.testBit 7 := by
  rw [and_bit7_eq]
  cases hx : x.testBit 7 <;> simp

/-- C6: ADC with D clear stores `(A + M + C) mod 256` in the accumulator,
sets carry exactly when the unsigned sum `A + M + C` exceeds `0xFF`, sets
overflow exactly when the sign bits of the old A and of M agree and differ
from the result's sign bit, and derives Z and N from the result. -/
theorem adc_binary_flag_semantics (a mem : Nat) (p : Flags) (hd : p.d = false) :
    (instructions.adc a mem p).1 = (a + mem + (if p.c then 1 else 0)) % 256 ∧
    (instructions.adc a mem p).2.c = decide (255 < a + mem + (if p.c then 1 else 0)) ∧
    (instructions.adc a mem p).2.v =
      (decide (a.testBit 7 = mem.testBit 7) &&
        decide (a.testBit 7 ≠ ((a + mem + (if p.c then 1 else 0)) % 256).testBit 7)) ∧
    (instructions.adc a mem p).2.z = decide ((a + mem + (if p.c then 1 else 0)) % 256 = 0) ∧
    (instructions.adc a mem p).2.n = ((a + mem + (if p.c then 1 else 0)) % 256).testBit 7 := by
  have hmod : ∀ cv : Nat, ((a + mem) % 256 + cv) % 256 = (a + mem + cv) % 256 := by
    intro cv; omega
  have hcarry : ∀ cv : Nat,
      (decide (256 ≤ a + mem) || decide (256 ≤ (a + mem) % 256 + cv)) =
        decide (255 < a + mem + cv) := by
    intro cv
    rw [← Bool.decide_or]
    exact decide_eq_decide.mpr (by omega)
  have hv : ∀ r : Nat,
      decide (a &&& 128 = mem &&& 128 ∧ a &&& 128 ≠ r &&& 128) =
        (decide (a.testBit 7 = mem.testBit 7) && decide (a.testBit 7 ≠ r.testBit 7)) := by
    intro r
    rw [Bool.decide_and]
    rw [decide_eq_decide.mpr (and_bit7_eq_iff a mem)]
    rw [decide_eq_decide.mpr (not_congr (and_bit7_eq_iff a r))]
  cases hpc : p.c <;>
    simp only [instructions.adc, hd, hpc, Bool.false_eq_true, if_false, if_true,
      update_zero_flag, update_negative_flag]
  · exact ⟨hmod 0, hcarry 0, by rw [hv, hmod 0], by rw [hmod 0], by rw [and_bit7_ne_zero, hmod 0]⟩
  · exact ⟨hmod 1, hcarry 1, by rw [hv, hmod 1], by rw [hmod 1], by rw [and_bit7_ne_zero, hmod 1]⟩

/-- Witness for C6 at the spec's scenario 2 (`A = 0x50`, `M = 0x50`, C = 0,
D = 0): the hypothesis holds and the instantiated conclusion gives
`A = 0xA0`, C = 0, V = 1, N = 1, Z = 0. -/
theorem adc_binary_flag_semantics_witness :
    flags0.d = false ∧
    instructions.adc 0x50 0x50 flags0 =
      (0xA0, { c := false, z := false, i := false, d := false, v := true, n := true }) ∧
    ((instructions.adc 0x50 0x50 flags0).1 = (0x50 + 0x50 + (if flags0.c then 1 else 0)) % 256 ∧
     (instructions.adc 0x50 0x50 flags0).2.c =
       decide (255 < 0x50 + 0x50 + (if flags0.c then 1 else 0)) ∧
     (instructions.adc 0x50 0x50 flags0).2.v =
       (decide ((0x50 : Nat).testBit 7 = (0x50 : Nat).testBit 7) &&
         decide ((0x50 : Nat).testBit 7 ≠
           ((0x50 + 0x50 + (if flags0.c then 1 else 0)) % 256).testBit 7)) ∧
     (instructions.adc 0x50 0x50 flags0).2.z =
       decide ((0x50 + 0x50 + (if flags0.c then 1 else 0)) % 256 = 0) ∧
     (instructions.adc 0x50 0x50 flags0).2.n =
       ((0x50 + 0x50 + (if flags0.c then 1 else 0)) % 256).testBit 7) :=
  ⟨rfl, by decide, adc_binary_flag_semantics 0x50 0x50 flags0 rfl⟩

/-- C9 amended: with D clear the two `adc` implementations agree on the
accumulator result and on the C, Z and N flags (the V flag, and the D-set
BCD path, differ — see the counterexample). -/
theorem adc_emulator_simul_agree_binary (a mem : Nat) (p : Flags) (hd : p.d = false) :
    (instructions.adc a mem p).1 = (simul.adc a mem p).1 ∧
    (instructions.adc a mem p).2.c = (simul.adc a mem p).2.c ∧
    (instructions.adc a mem p).2.z = (simul.adc a mem p).2.z ∧
    (instructions.adc a mem p).2.n = (simul.adc a mem p).2.n := by
  simp [instructions.adc, simul.adc, hd, update_zero_flag, update_negative_flag]

/-- With rendering disabled, `handle_scrolling` returns its input unchanged. -/
theorem handle_scrolling_disabled (p : ppu.PPU) (h : p.rendering_is_enabled = false) :
    ppu.handle_scrolling p = p := by
  simp [ppu.handle_scrolling, h]

/-- C10 amended: with rendering disabled, whenever `tick` returns at all it
leaves `v`, `t` and `fine_x` (and the rendering switch) unchanged — only the
scanline and cycle counters move.  (On scanlines 242-260, and on cycle
overruns, `tick` instead aborts; see the counterexample.) -/
theorem tick_rendering_disabled_preserves_scroll_state (p q : ppu.PPU) (c : Nat)
    (hren : p.rendering_is_enabled = false) (h : ppu.tick p = some (q, c)) :
    q.v = p.v ∧ q.t = p.t ∧ q.fine_x = p.fine_x ∧ q.rendering_is_enabled = false := by
  have hsc : ppu.handle_scrolling p = p := handle_scrolling_disabled p hren
  simp only [ppu.tick, ppu.tick_render, hsc] at h
  rw [Option.bind_eq_some] at h
  obtain ⟨st, hd, hf⟩ := h
  have hst1 : st.1 = p := by
    split at hd
    · rw [Option.map_eq_some'] at hd
      obtain ⟨cyc, -, hst⟩ := hd
      rw [← hst]
    · split at hd
      · injection hd with hd; rw [← hd]
      · split at hd
        · injection hd with hd; rw [← hd]
        · exact absurd hd (by simp)
  rw [hst1] at hf
  split at hf
  · exact absurd hf (by simp)
  · split at hf <;>
    · rw [Option.some.injEq, Prod.mk.injEq] at hf
      obtain ⟨hq, -⟩ := hf
      rw [← hq]
      simp [hren]

/-- Witness for the C10 amended claim: a disabled-rendering tick from
scanline 100, cycle 10 returns with only the cycle counter advanced. -/
theorem tick_rendering_disabled_preserves_witness :
    ppu_disabled100.rendering_is_enabled = false ∧
    ppu.tick ppu_disabled100 = some ({ ppu_disabled100 with cycle := 11 }, 1) ∧
    (({ ppu_disabled100 with cycle := 11 } : ppu.PPU).v = ppu_disabled100.v ∧
     ({ ppu_disabled100 with cycle := 11 } : ppu.PPU).t = ppu_disabled100.t ∧
     ({ ppu_disabled100 with cycle := 11 } : ppu.PPU).fine_x = ppu_disabled100.fine_x ∧
     ({ ppu_disabled100 with cycle := 11 } : ppu.PPU).rendering_is_enabled = false) :=
  ⟨rfl, by decide,
    tick_rendering_disabled_preserves_scroll_state ppu_disabled100
      { ppu_disabled100 with cycle := 11 } 1 rfl (by decide)⟩

/-- A disjoint-mask merge `(x &&& ma) ||| (y &&& mb)` takes its `mb` bits
from `y` and its `ma` bits from `x`. -/
theorem masked_merge_and (x y ma mb : Nat) (hab : ma &&& mb = 0) :
    ((x &&& ma) ||| (y &&& mb)) &&& mb = y &&& mb ∧
    ((x &&& ma) ||| (y &&& mb)) &&& ma = x &&& ma := by
  constructor <;>
  · apply Nat.eq_of_testBit_eq
    intro i
    have h := congrArg (fun z => z.testBit i) hab
    simp only [Nat.testBit_and, Nat.zero_testBit] at h
    simp only [Nat.testBit_and, Nat.testBit_or]
    cases hx : x.testBit i <;> cases hy : y.testBit i <;>
      cases hma : ma.testBit i <;> cases hmb : mb.testBit i <;> simp_all

/-- C5: with rendering enabled, the dot-257 copy replaces in `v` exactly the
bits selected by `0x041F` (with `t`'s bits) and leaves the other bits of
`v` unchanged; the pre-render copy at dots 280-304 does the same for mask
`0x7BE0`; and the two binary mask literals of the source equal `0x041F`
and `0x7BE0`. -/
theorem scroll_copy_masks_correct (p : ppu.PPU) (hren : p.rendering_is_enabled = true) :
    ppu.horizontal_bitmask = 0x041F ∧ ppu.vertical_bitmask = 0x7BE0 ∧
    (p.cycle = 257 →
      (ppu.handle_scrolling p).v &&& 0x041F = p.t &&& 0x041F ∧
      (ppu.handle_scrolling p).v &&& (0xFFFF ^^^ 0x041F) = p.v &&& (0xFFFF ^^^ 0x041F)) ∧
    (p.scanline = 261 → 280 ≤ p.cycle → p.cycle ≤ 304 →
      (ppu.handle_scrolling p).v &&& 0x7BE0 = p.t &&& 0x7BE0 ∧
      (ppu.handle_scrolling p).v &&& (0xFFFF ^^^ 0x7BE0) = p.v &&& (0xFFFF ^^^ 0x7BE0)) := by
  refine ⟨rfl, rfl, ?_, ?_⟩
  · intro h257
    simp [ppu.handle_scrolling, ppu.horizontal_bitmask, hren, h257]
    exact ⟨(masked_merge_and p.v p.t _ _ (by decide)).1,
           (masked_merge_and p.v p.t _ _ (by decide)).2⟩
  · intro h261 h280 h304
    have hc256 : ¬(p.cycle = 256) := by omega
    have hc257 : ¬(p.cycle = 257) := by omega
    have hle : ¬(p.cycle ≤ 256) := by omega
    have hge : ¬(328 ≤ p.cycle) := by omega
    simp [ppu.handle_scrolling, ppu.vertical_bitmask, hren, hc256, hc257, hle, hge,
      h261, h280, h304]
    exact ⟨(masked_merge_and p.v p.t _ _ (by decide)).1,
           (masked_merge_and p.v p.t _ _ (by decide)).2⟩

/-- Witness for C5 at `ppu_copy257` (dot 257, `v = 0x7FFF`, `t = 0x1234`):
the copy yields `v = 0x7BF4`, i.e. `t`'s bits under `0x041F` and `v`'s
elsewhere. -/
theorem scroll_copy_masks_correct_witness :
    ppu_copy257.rendering_is_enabled = true ∧
    (ppu.handle_scrolling ppu_copy257).v = 0x7BF4 ∧
    (ppu.horizontal_bitmask = 0x041F ∧ ppu.vertical_bitmask = 0x7BE0 ∧
     (ppu_copy257.cycle = 257 →
       (ppu.handle_scrolling ppu_copy257).v &&& 0x041F = ppu_copy257.t &&& 0x041F ∧
       (ppu.handle_scrolling ppu_copy257).v &&& (0xFFFF ^^^ 0x041F) =
         ppu_copy257.v &&& (0xFFFF ^^^ 0x041F)) ∧
     (ppu_copy257.scanline = 261 → 280 ≤ ppu_copy257.cycle → ppu_copy257.cycle ≤ 304 →
       (ppu.handle_scrolling ppu_copy257).v &&& 0x7BE0 = ppu_copy257.t &&& 0x7BE0 ∧
       (ppu.handle_scrolling ppu_copy257).v &&& (0xFFFF ^^^ 0x7BE0) =
         ppu_copy257.v &&& (0xFFFF ^^^ 0x7BE0))) :=
  ⟨rfl, by decide, scroll_copy_masks_correct ppu_copy257 rfl⟩

/-- Any successful sequence of mounts only ever prepends: the starting
modules survive as a suffix of the module list. -/
theorem mountList_modules_suffix :
    ∀ (ms : List (Nat × Nat × Nat)) (mgr0 mgr : memory.Manager),
      memory.mountList mgr0 ms = some mgr →
      ∃ pre, mgr.modules = pre ++ mgr0.modules := by
  intro ms
  induction ms with
  | nil =>
    intro mgr0 mgr h
    injection h with h
    rw [← h]
    exact ⟨[], rfl⟩
  | cons head tl ih =>
    intro mgr0 mgr h
    obtain ⟨d, s, e⟩ := head
    unfold memory.mountList at h
    cases hm : memory.mount mgr0 d s e with
    | none => rw [hm] at h; exact absurd h (by simp)
    | some mgr1 =>
      rw [hm] at h
      obtain ⟨pre, hpre⟩ := ih mgr1 mgr h
      unfold memory.mount at hm
      split at hm
      · exact absurd hm (by simp)
      · injection hm with hm
        rw [← hm] at hpre
        refine ⟨pre ++ [{ delegate := d, start_addr := s, end_addr := e }], ?_⟩
        rw [hpre]
        simp

/-- `find_module` on a list ending in a module that contains the address
always finds something. -/
theorem find_module_with_tail (mods : List memory.Module) (ram : memory.Module)
    (addr : Nat) (hs : ram.start_addr ≤ addr) (he : addr ≤ ram.end_addr) :
    ∃ m, memory.find_module (mods ++ [ram]) addr = some m := by
  induction mods with
  | nil =>
    refine ⟨ram, ?_⟩
    simp [memory.find_module, hs, he]
  | cons m rest ih =>
    by_cases hc : m.start_addr ≤ addr ∧ addr ≤ m.end_addr
    · refine ⟨m, ?_⟩
      simp [memory.find_module, hc]
    · obtain ⟨m', hm'⟩ := ih
      refine ⟨m', ?_⟩
      rw [List.cons_append]
      unfold memory.find_module
      rw [if_neg hc]
      exact hm'

/-- C7: reads and writes are served by the first module in the list whose
inclusive range contains the address; `mount` prepends its module, so the
most recent containing mount wins; and starting from `new()` (whose RAM
module spans the whole `u16` space) a containing module always exists, so
`read` and `write` never fail. -/
theorem manager_routes_first_containing_module :
    (∀ (m : memory.Module) (rest : List memory.Module) (addr : Nat),
        memory.find_module (m :: rest) addr =
          if m.start_addr ≤ addr ∧ addr ≤ m.end_addr then some m
          else memory.find_module rest addr) ∧
    (∀ (mgr mgr' : memory.Manager) (d s e : Nat),
        memory.mount mgr d s e = some mgr' →
        mgr'.modules = { delegate := d, start_addr := s, end_addr := e } :: mgr.modules) ∧
    (∀ (ms : List (Nat × Nat × Nat)) (mgr : memory.Manager),
        memory.mountList memory.new ms = some mgr →
        ∀ addr : Nat, addr ≤ 65535 →
          ∃ m, memory.find_module mgr.modules addr = some m ∧
            (∀ env, memory.read env mgr addr = some (env m.delegate addr)) ∧
            (∀ byte, memory.write mgr addr byte = some (m.delegate, addr, byte))) := by
  refine ⟨fun m rest addr => rfl, ?_, ?_⟩
  · intro mgr mgr' d s e h
    unfold memory.mount at h
    split at h
    · exact absurd h (by simp)
    · injection h with h
      rw [← h]
  · intro ms mgr hml addr haddr
    obtain ⟨pre, hpre⟩ := mountList_modules_suffix ms memory.new mgr hml
    have hmods : mgr.modules =
        pre ++ [{ delegate := 0, start_addr := 0, end_addr := 65535 }] := by
      simpa [memory.new] using hpre
    obtain ⟨m, hm⟩ :=
      find_module_with_tail pre { delegate := 0, start_addr := 0, end_addr := 65535 }
        addr (Nat.zero_le addr) haddr
    refine ⟨m, ?_, ?_, ?_⟩
    · rw [hmods]; exact hm
    · intro env
      unfold memory.read
      rw [hmods, hm]
      rfl
    · intro byte
      unfold memory.write
      rw [hmods, hm]
      rfl

/-- Witness for C7: mounting device 7 over `$2000-$3FFF` on a fresh manager,
address `$2400` is served by that device (the most recent containing
mount), and read and write both succeed. -/
theorem manager_routes_witness :
    memory.mountList memory.new [(7, 0x2000, 0x3FFF)] = some mgr1 ∧
    memory.find_module mgr1.modules 0x2400 =
      some { delegate := 7, start_addr := 0x2000, end_addr := 0x3FFF } ∧
    memory.read (fun dev _ => dev) mgr1 0x2400 = some 7 ∧
    memory.write mgr1 0x2400 0x55 = some (7, 0x2400, 0x55) := by
  obtain ⟨m, h1, h2, h3⟩ :=
    manager_routes_first_containing_module.2.2 [(7, 0x2000, 0x3FFF)] mgr1 rfl 0x2400 (by decide)
  have hfm : memory.find_module mgr1.modules 0x2400 =
      some { delegate := 7, start_addr := 0x2000, end_addr := 0x3FFF } := by decide
  have hm : m = { delegate := 7, start_addr := 0x2000, end_addr := 0x3FFF } := by
    rw [hfm] at h1
    injection h1 with h1
    exact h1.symm
  subst hm
  exact ⟨rfl, hfm, h2 (fun dev _ => dev), h3 0x55⟩

/-- C8: for every branch instruction and every addressing mode, a false
condition returns 0 extra cycles with the CPU left exactly as the resolver
left it (the target is not assigned to PC); a true condition sets PC to the
resolved target and returns the mode's extra cycles plus one.  The closing
conjuncts check the page-cross accounting through the spec-modelled
relative mode at scenario 5: a taken BNE at `$C0FE` (operand byte at
`$C0FF`) with offset +4 lands at `$C104` for 2 extra cycles (1 taken +
1 page-cross), while the same branch at `$C080` costs only the taken
cycle. -/
theorem branch_instructions_semantics :
    (∀ (mode : AddressingMode) (cpu : CPU),
      instructions.bmi cpu mode =
        (if cpu.p.n then ({ (mode cpu).1 with pc := (mode cpu).2.1 }, (mode cpu).2.2 + 1)
         else ((mode cpu).1, 0)) ∧
      instructions.bpl cpu mode =
        (if cpu.p.n then ((mode cpu).1, 0)
         else ({ (mode cpu).1 with pc := (mode cpu).2.1 }, (mode cpu).2.2 + 1)) ∧
      instructions.bcc cpu mode =
        (if cpu.p.c then ((mode cpu).1, 0)
         else ({ (mode cpu).1 with pc := (mode cpu).2.1 }, (mode cpu).2.2 + 1)) ∧
      instructions.bcs cpu mode =
        (if cpu.p.c then ({ (mode cpu).1 with pc := (mode cpu).2.1 }, (mode cpu).2.2 + 1)
         else ((mode cpu).1, 0)) ∧
      instructions.beq cpu mode =
        (if cpu.p.z then ({ (mode cpu).1 with pc := (mode cpu).2.1 }, (mode cpu).2.2 + 1)
         else ((mode cpu).1, 0)) ∧
      instructions.bne cpu mode =
        (if cpu.p.z then ((mode cpu).1, 0)
         else ({ (mode cpu).1 with pc := (mode cpu).2.1 }, (mode cpu).2.2 + 1)) ∧
      instructions.bvs cpu mode =
        (if cpu.p.v then ({ (mode cpu).1 with pc := (mode cpu).2.1 }, (mode cpu).2.2 + 1)
         else ((mode cpu).1, 0)) ∧
      instructions.bvc cpu mode =
        (if cpu.p.v then ((mode cpu).1, 0)
         else ({ (mode cpu).1 with pc := (mode cpu).2.1 }, (mode cpu).2.2 + 1))) ∧
    instructions.bne { a := 0, pc := 0xC0FF, p := flags0 } (addressing.relative 4) =
      ({ a := 0, pc := 0xC104, p := flags0 }, 2) ∧
    instructions.bne { a := 0, pc := 0xC081, p := flags0 } (addressing.relative 4) =
      ({ a := 0, pc := 0xC086, p := flags0 }, 1) := by
  refine ⟨?_, by decide, by decide⟩
  intro mode cpu
  refine ⟨?_, ?_, ?_, ?_, ?_, ?_, ?_, ?_⟩
  · cases hb : cpu.p.n <;> simp [instructions.bmi, instructions.branch_if, hb]
  · cases hb : cpu.p.n <;> simp [instructions.bpl, instructions.branch_if, hb]
  · cases hb : cpu.p.c <;> simp [instructions.bcc, instructions.branch_if, hb]
  · cases hb : cpu.p.c <;> simp [instructions.bcs, instructions.branch_if, hb]
  · cases hb : cpu.p.z <;> simp [instructions.beq, instructions.branch_if, hb]
  · cases hb : cpu.p.z <;> simp [instructions.bne, instructions.branch_if, hb]
  · cases hb : cpu.p.v <;> simp [instructions.bvs, instructions.branch_if, hb]
  · cases hb : cpu.p.v <;> simp [instructions.bvc, instructions.branch_if, hb]

/-- Witness for the C9 amended claim at `A = 0x12`, `M = 0x34`, D clear. -/
theorem adc_emulator_simul_agree_binary_witness :
    flags0.d = false ∧
    ((instructions.adc 0x12 0x34 flags0).1 = (simul.adc 0x12 0x34 flags0).1 ∧
     (instructions.adc 0x12 0x34 flags0).2.c = (simul.adc 0x12 0x34 flags0).2.c ∧
     (instructions.adc 0x12 0x34 flags0).2.z = (simul.adc 0x12 0x34 flags0).2.z ∧
     (instructions.adc 0x12 0x34 flags0).2.n = (simul.adc 0x12 0x34 flags0).2.n) :=
  ⟨rfl, adc_emulator_simul_agree_binary 0x12 0x34 flags0 rfl⟩
